import Mathlib

/-!
Shallow embedding of `src/ab_links_solver.py` (`EnhancedABLinksSolver`):
service detection, retrying HTTP fetch, extraction strategies, single and
batch resolution, and result export.  The HTTP layer is modelled as an
explicit environment function giving the outcome of each attempted request,
and elapsed wall-clock time is an explicit parameter.
-/

/-- Model of a `requests.Response`: the final URL (after whatever redirects
the environment followed) and the body text. -/
structure Response where
  url : String
  text : String
deriving DecidableEq, Repr

/-- Outcome of one attempted HTTP exchange as observed inside
`safe_request`: a 2xx response, a `requests.exceptions.RequestException`
(the only exception class `safe_request` catches; it covers transport
errors and the non-2xx `raise_for_status`), or any other exception, which
`safe_request` does not catch and therefore propagates to its caller. -/
inductive FetchResult where
  | ok (r : Response)
  | reqErr (msg : String)
  | exn (msg : String)
deriving DecidableEq, Repr

/-- HTTP environment: the outcome of fetching a given URL, with redirects
enabled or not, at a given 0-indexed attempt number. -/
abbrev Fetch := String → Bool → Nat → FetchResult

/-- Observable trace of one `safe_request` call: the returned value
(`Except` models an uncaught exception escaping the call), the number of
attempts performed, and the list of back-off sleeps (in seconds) taken. -/
structure ReqTrace where
  result : Except String (Option Response)
  attempts : Nat
  sleeps : List Nat
deriving Repr

/-- The `for attempt in range(self.max_retries)` loop of `safe_request`
(`ab_links_solver.py` lines 72-95).  `fuel` is the number of loop
iterations still available; the invariant `fuel + attempt = m` ties it to
the 0-indexed `attempt` counter.  A successful attempt returns the
response; a `RequestException` on the last attempt (`attempt ==
max_retries - 1`) returns `None` immediately, otherwise the loop sleeps
`2 ** attempt` seconds and retries; any other exception propagates. -/
def safe_request_go (fetch : Fetch) (url : String) (redir : Bool) (m : Nat) :
    Nat → Nat → ReqTrace
  | 0, _ => ⟨.ok none, 0, []⟩
  | fuel + 1, attempt =>
    match fetch url redir attempt with
    | .ok r => ⟨.ok (some r), 1, []⟩
    | .exn e => ⟨.error e, 1, []⟩
    | .reqErr _ =>
      if attempt = m - 1 then ⟨.ok none, 1, []⟩
      else
        let t := safe_request_go fetch url redir m fuel (attempt + 1)
        ⟨t.result, t.attempts + 1, 2 ^ attempt :: t.sleeps⟩

/-- `EnhancedABLinksSolver.safe_request` (lines 70-95): up to `m`
(`max_retries`) attempts starting at attempt 0. -/
def safe_request (fetch : Fetch) (url : String) (redir : Bool) (m : Nat) : ReqTrace :=
  safe_request_go fetch url redir m m 0

/-- A single-quote character (used by the quote classes in the regexes). -/
def squote : Char := Char.ofNat 39

/-- Python `\s` (ASCII fragment): space, tab, newline, carriage return,
vertical tab, form feed. -/
def pyIsSpace (c : Char) : Bool :=
  c = ' ' || c = '\t' || c = '\n' || c = '\r' || c = Char.ofNat 11 || c = Char.ofNat 12

/-- Case-insensitive character comparison, modelling literal matching under
`re.IGNORECASE` (ASCII case folding). -/
def lowerEq (a b : Char) : Bool := a.toLower = b.toLower

/-- Strip a literal from the head of the input, case-insensitively,
returning the remainder on success. -/
def stripCI : List Char → List Char → Option (List Char)
  | [], s => some s
  | _ :: _, [] => none
  | c :: cs, x :: xs => if lowerEq c x then stripCI cs xs else none

/-- Strip a literal from the head of the input, case-sensitively. -/
def stripLit : List Char → List Char → Option (List Char)
  | [], s => some s
  | _ :: _, [] => none
  | c :: cs, x :: xs => if c = x then stripLit cs xs else none

/-- Remainders after `https?://` can match at the head of the input
(case-insensitively).  The two alternatives of `s?` are listed explicitly,
so the existential (backtracking) semantics of the regex is preserved;
since `'s'` and `':'` differ, at most one alternative can succeed. -/
def schemeCandidates (s : List Char) : List (List Char) :=
  match stripCI ("http".toList) s with
  | none => []
  | some r =>
    (match stripCI ("s://".toList) r with | some a => [a] | none => []) ++
    (match stripCI ("://".toList) r with | some a => [a] | none => [])

/-- Remainders after the optional `(?:www\.)?` group: both taking the group
and skipping it are candidates, preserving the regex's existential
semantics. -/
def wwwCandidates (r : List Char) : List (List Char) :=
  (match stripCI ("www.".toList) r with | some a => [a] | none => []) ++ [r]

/-- Common shape of every `service_patterns` regex under `re.match` (match
anchored at the start, a trailing remainder being irrelevant):
`https?://(?:www\.)?` followed by a literal host (with its trailing `/`
where the pattern has one) and then a service-specific tail. -/
def hostTailMatch (host : List Char) (tail : List Char → Bool) (s : List Char) : Bool :=
  (schemeCandidates s).any fun r2 =>
    (wwwCandidates r2).any fun r3 =>
      match stripCI host r3 with
      | some r4 => tail r4
      | none => false

/-- `(.+)` matched against a remainder under the non-full `re.match`: it
succeeds exactly when at least one character follows and the first one is
not a newline (`.` does not match `\n` without `DOTALL`). -/
def dotPlusTail (s : List Char) : Bool :=
  match s with
  | [] => false
  | c :: _ => c != '\n'

/-- `\d+/` followed by `tail`: one or more digits then a slash.  Because
`/` is not a digit, the greedy maximal digit run is the only run `\d+` can
take when followed by `/`, so taking the maximal run is equivalent to the
regex's existential semantics. -/
def digitsSlashTail (tail : List Char → Bool) (s : List Char) : Bool :=
  let ds := s.takeWhile Char.isDigit
  decide (ds ≠ []) &&
    match s.drop ds.length with
    | '/' :: r => tail r
    | _ => false

/-- ASCII `[A-Za-z0-9]`. -/
def alnumAZ09 (c : Char) : Bool :=
  ('A' ≤ c && c ≤ 'Z') || ('a' ≤ c && c ≤ 'z') || ('0' ≤ c && c ≤ '9')

/-- Pattern `https?://(?:www\.)?adf\.ly/\d+/(.+)` under `re.match` with
`re.IGNORECASE`. -/
def adflyPat1 (url : String) : Bool :=
  hostTailMatch ("adf.ly/".toList) (digitsSlashTail dotPlusTail) url.toList

/-- Pattern `https?://(?:www\.)?adfoc\.us/\d+/(.+)`. -/
def adflyPat2 (url : String) : Bool :=
  hostTailMatch ("adfoc.us/".toList) (digitsSlashTail dotPlusTail) url.toList

/-- Pattern `https?://(?:www\.)?linkvertise\.com/(?:\d+/)?(.+)`: after the
host, either the optional `\d+/` group is taken and then `(.+)`, or `(.+)`
alone. -/
def lvPat1 (url : String) : Bool :=
  hostTailMatch ("linkvertise.com/".toList)
    (fun r => digitsSlashTail dotPlusTail r || dotPlusTail r) url.toList

/-- Pattern `https?://(?:www\.)?link-to\.net/\d+/(.+)`. -/
def lvPat2 (url : String) : Bool :=
  hostTailMatch ("link-to.net/".toList) (digitsSlashTail dotPlusTail) url.toList

/-- Pattern `https?://(?:www\.)?gyanilinks\.com/\d+/(.+)`. -/
def gyPat1 (url : String) : Bool :=
  hostTailMatch ("gyanilinks.com/".toList) (digitsSlashTail dotPlusTail) url.toList

/-- Pattern `https?://(?:www\.)?shortconnect\.com/[A-Za-z0-9]+`: after the
host, one alphanumeric character suffices for a non-full anchored match. -/
def scPat1 (url : String) : Bool :=
  hostTailMatch ("shortconnect.com/".toList)
    (fun r => match r with
              | [] => false
              | c :: _ => alnumAZ09 c) url.toList

/-- `self.service_patterns` (lines 39-54): the services in dict insertion
order, each with its ordered list of patterns. -/
def service_patterns : List (String × List (String → Bool)) :=
  [("adfly", [adflyPat1, adflyPat2]),
   ("linkvertise", [lvPat1, lvPat2]),
   ("gyanilinks", [gyPat1]),
   ("shortconnect", [scPat1])]

/-- `EnhancedABLinksSolver.detect_service` (lines 62-68): return the first
service one of whose patterns matches the URL, else `'unknown'`. -/
def detect_service (url : String) : String :=
  match service_patterns.find? (fun sp => sp.2.any (fun p => p url)) with
  | some sp => sp.1
  | none => "unknown"

/-- The `ysmm` descramble loop of `extract_adfly_link` (lines 117-122):
`decoded = ''`; for each index `i` of the token, append character `i` when
`i` is even and prepend it when `i` is odd.  `acc` is the `decoded`
accumulator. -/
def descrambleGo : Nat → List Char → List Char → List Char
  | _, [], acc => acc
  | i, c :: cs, acc =>
    descrambleGo (i + 1) cs (if i % 2 = 0 then acc ++ [c] else c :: acc)

/-- The full descramble transform applied to a captured token. -/
def descramble (ysmm : List Char) : List Char := descrambleGo 0 ysmm []

/-- The character class `[^\s<>"\x27]` of the URL-search regex in
`extract_adfly_link` (line 125). -/
def urlChar (c : Char) : Bool :=
  !(pyIsSpace c || c = '<' || c = '>' || c = '"' || c = squote)

/-- Match `https?://[^\s<>"\x27]+` at the head of `s` (case-sensitively:
this `re.search` has no flags), returning the number of characters of the
greedy match.  The `s?` alternatives are tried explicitly; the final class
takes the maximal run, which is the greedy behaviour. -/
def urlMatchLen (s : List Char) : Option Nat :=
  match stripLit ("http".toList) s with
  | none => none
  | some r =>
    match
      (match stripLit ("s://".toList) r with
       | some a => some (8, a)
       | none => none).orElse
        (fun _ => match stripLit ("://".toList) r with
                  | some a => some (7, a)
                  | none => none) with
    | none => none
    | some (n, r2) =>
      let run := r2.takeWhile urlChar
      if run.isEmpty then none else some (n + run.length)

/-- `re.search(r'(https?://[^\s<>"\x27]+)', decoded)` (line 125): scan
positions left to right and return the first (greedy) match. -/
def findUrlGo : List Char → Option (List Char)
  | [] => none
  | s@(_ :: rest) =>
    match urlMatchLen s with
    | some n => some (s.take n)
    | none => findUrlGo rest

/-- Match, at the head of `s`, the part `\s*=\s*["\x27]([^"\x27]+)["\x27]`
shared by both `ysmm` patterns, returning the captured token.  `[^"\x27]+`
takes the maximal run of non-quote characters; since the closing quote is
excluded from the class, the maximal run is the only one a following quote
can accept, matching the regex's greedy semantics. -/
def eqQuoteCapture (s : List Char) : Option (List Char) :=
  let r4 := s.drop ((s.takeWhile pyIsSpace).length)
  match stripLit ("=".toList) r4 with
  | none => none
  | some r5 =>
    let r6 := r5.drop ((r5.takeWhile pyIsSpace).length)
    match r6 with
    | [] => none
    | q :: r7 =>
      if q = '"' || q = squote then
        let tok := r7.takeWhile (fun c => !(c = '"' || c = squote))
        if tok.isEmpty then none
        else
          match r7.drop tok.length with
          | q2 :: _ => if q2 = '"' || q2 = squote then some tok else none
          | [] => none
      else none

/-- Match `var\s+ysmm` then `eqQuoteCapture` at the head of `s` (first
`ysmm` pattern, line 108). -/
def ysmmAt1 (s : List Char) : Option (List Char) :=
  match stripLit ("var".toList) s with
  | none => none
  | some r1 =>
    let sp := r1.takeWhile pyIsSpace
    if sp.isEmpty then none
    else
      match stripLit ("ysmm".toList) (r1.drop sp.length) with
      | none => none
      | some r3 => eqQuoteCapture r3

/-- Match `ysmm` then `eqQuoteCapture` at the head of `s` (second `ysmm`
pattern, line 109). -/
def ysmmAt2 (s : List Char) : Option (List Char) :=
  match stripLit ("ysmm".toList) s with
  | none => none
  | some r3 => eqQuoteCapture r3

/-- `re.search` scan for a position-wise matcher: first match wins. -/
def searchGo (at_ : List Char → Option (List Char)) : List Char → Option (List Char)
  | [] => at_ []
  | s@(_ :: rest) =>
    match at_ s with
    | some tok => some tok
    | none => searchGo at_ rest

/-- The HTML-processing part of `extract_adfly_link` (lines 106-129): for
each `ysmm` pattern in order, if it matches somewhere, descramble the
captured token and search the result for an embedded URL; return the first
URL found, else `None`.  (A pattern that matches but yields no URL does not
return early: the loop falls through to the next pattern.) -/
def extract_adfly_from_html (html : List Char) : Option (List Char) :=
  match (searchGo ysmmAt1 html).bind (fun tok => findUrlGo (descramble tok)) with
  | some u => some u
  | none => (searchGo ysmmAt2 html).bind (fun tok => findUrlGo (descramble tok))

/-- `EnhancedABLinksSolver.extract_adfly_link` (lines 97-133): fetch with
`allow_redirects=False`; on fetch failure (`None`) or on any exception
propagating out of `safe_request` (swallowed by the `except Exception`
block) return `None`; otherwise process the body. -/
def extract_adfly_link (fetch : Fetch) (m : Nat) (url : String) : Option String :=
  match (safe_request fetch url false m).result with
  | .error _ => none
  | .ok none => none
  | .ok (some r) => (extract_adfly_from_html r.text.toList).map (fun l => String.mk l)

/-- `EnhancedABLinksSolver.extract_linkvertise_link` (lines 135-146): fetch
with `allow_redirects=True`; if a response arrived and its final URL
differs from the input, that is the candidate, else `None`; an exception
out of `safe_request` is swallowed by the `except Exception` block. -/
def extract_linkvertise_link (fetch : Fetch) (m : Nat) (url : String) : Option String :=
  match (safe_request fetch url true m).result with
  | .error _ => none
  | .ok none => none
  | .ok (some r) => if r.url ≠ url then some r.url else none

/-- The `SolveResult` dataclass (lines 19-28).  `response_time` is a
rational number of seconds (the Python value is a float). -/
structure SolveResult where
  original_url : String
  service : String
  solved_url : Option String
  success : Bool
  error : Option String := none
  response_time : Option ℚ := none
  metadata : Option (List (String × String)) := none
deriving DecidableEq, Repr

/-- The body of the `try` block of `solve_single` (lines 160-172): select
the strategy by detected service and run it.  `Except.error` models an
exception escaping the dispatched code into `solve_single`'s handler; of
the strategies only the direct `safe_request` call of the `shortconnect`
branch can let one escape, the other strategies having their own
`except Exception` blocks. -/
def dispatchStrategy (fetch : Fetch) (m : Nat) (url : String) :
    Except String (Option String) :=
  let service := detect_service url
  if service = "adfly" then .ok (extract_adfly_link fetch m url)
  else if service = "linkvertise" then .ok (extract_linkvertise_link fetch m url)
  else if service = "gyanilinks" then .ok (extract_adfly_link fetch m url)
  else if service = "shortconnect" then
    match (safe_request fetch url true m).result with
    | .error e => .error e
    | .ok (some r) => .ok (some r.url)
    | .ok none => .ok none
  else .ok none

/-- `EnhancedABLinksSolver.solve_single` (lines 148-181).  `elapsed` models
the wall-clock duration `time.time() - start_time` measured by the
environment; it is written into `response_time` unconditionally after the
`try`/`except`. -/
def solve_single (fetch : Fetch) (m : Nat) (elapsed : ℚ) (url : String) : SolveResult :=
  let service := detect_service url
  let base : SolveResult :=
    { original_url := url, service := service, solved_url := none, success := false }
  let afterTry : SolveResult :=
    match dispatchStrategy fetch m url with
    | .ok solved => { base with solved_url := solved, success := solved.isSome }
    | .error e => { base with error := some e }
  { afterTry with response_time := some elapsed }

/-- One worker task of `solve_batch` for input index `j` (lines 188-202):
either `future.result()` delivers the `solve_single` result, or the task
faulted (`faults j = some e`) and the scheduler synthesizes a failure
result for the originating URL — with service `'unknown'`, no solved URL,
and no `response_time` (the dataclass default `None`). -/
def taskResult (fetch : Fetch) (m : Nat) (elapsedOf : Nat → ℚ)
    (faults : Nat → Option String) (urls : List String) (j : Nat) : SolveResult :=
  match faults j with
  | some e =>
    { original_url := urls.getD j "", service := "unknown", solved_url := none,
      success := false, error := some e }
  | none => solve_single fetch m (elapsedOf j) (urls.getD j "")

/-- `enumerate(...)` as index-value pairs, starting at `i`. -/
def enumIdx {α : Type} : Nat → List α → List (Nat × α)
  | _, [] => []
  | i, u :: us => (i, u) :: enumIdx (i + 1) us

/-- `url_order = {url: i for i, url in enumerate(urls)}` followed by
`url_order.get(u, 0)` (lines 205-206): a dict comprehension lets later
indices overwrite earlier ones, so the lookup yields the **last** index at
which `u` occurs, defaulting to 0. -/
def url_order (urls : List String) (u : String) : Nat :=
  match ((enumIdx 0 urls).filter (fun p => p.2 = u)).getLast? with
  | some p => p.1
  | none => 0

/-- `results.sort(key=...)` (line 206): Python's `list.sort` is a stable
sort by key, extensionally equal to stable insertion sort with the
reflexive key order. -/
def pySortByKey (key : SolveResult → Nat) (l : List SolveResult) : List SolveResult :=
  List.insertionSort (fun a b => key a ≤ key b) l

/-- `EnhancedABLinksSolver.solve_batch` (lines 183-208).  `order` is the
sequence in which `as_completed` yields the worker tasks (a permutation of
the input indices chosen by the scheduler); results are collected in that
order and then sorted by `url_order` of their `original_url`.  The
`max_workers` bound does not affect the value computed. -/
def solve_batch (fetch : Fetch) (m : Nat) (elapsedOf : Nat → ℚ)
    (faults : Nat → Option String) (urls : List String) (order : List Nat) :
    List SolveResult :=
  let results := order.map (taskResult fetch m elapsedOf faults urls)
  pySortByKey (fun r => url_order urls r.original_url) results

/-- The modules imported by `ab_links_solver.py` (lines 7-15).  The name
`json` is absent: the module never imports it. -/
def module_imports : List String :=
  ["re", "time", "random", "logging", "typing", "dataclasses",
   "urllib.parse", "requests", "concurrent.futures"]

/-- Python `str()` of a boolean. -/
def pyStrBool : Bool → String
  | true => "True"
  | false => "False"

/-- Rendering of an optional string field into a JSON value (string
escaping abstracted; no claim inspects this text). -/
def jsonOptStr : Option String → String
  | some s => "\"" ++ s ++ "\""
  | none => "null"

/-- Rendering of the optional response time (decimal formatting of the
float abstracted; no claim inspects this text). -/
def jsonOptTime : Option ℚ → String
  | some q => toString q
  | none => "null"

/-- One object of the `json` branch of `export_results` (lines 214-222). -/
def jsonObject (r : SolveResult) : String :=
  "\x7b\"original_url\": " ++ jsonOptStr (some r.original_url) ++
  ", \"service\": " ++ jsonOptStr (some r.service) ++
  ", \"solved_url\": " ++ jsonOptStr r.solved_url ++
  ", \"success\": " ++ (if r.success then "true" else "false") ++
  ", \"response_time\": " ++ jsonOptTime r.response_time ++
  ", \"error\": " ++ jsonOptStr r.error ++ "\x7d"

/-- The string `json.dumps(data, indent=2)` would produce (whitespace
abstracted): an array of one object per result. -/
def jsonRender (results : List SolveResult) : String :=
  "[" ++ String.intercalate ", " (results.map jsonObject) ++ "]"

/-- One row of the `csv` branch (lines 228-231): quoted URL/service/error
fields, `str()` of the boolean, and `response_time or 0`. -/
def csvRow (r : SolveResult) : String :=
  "\"" ++ r.original_url ++ "\",\"" ++ r.service ++ "\",\"" ++
  (r.solved_url.getD "") ++ "\"," ++ pyStrBool r.success ++ "," ++
  jsonOptTime (some (r.response_time.getD 0)) ++ ",\"" ++ (r.error.getD "") ++ "\""

/-- One entry of the `text` branch (lines 236-244), given its 1-based
number; the caller has already ensured `response_time` is present (the
`:.2f` conversion would raise on `None`; decimal formatting abstracted). -/
def textEntry (n : Nat) (r : SolveResult) : String :=
  toString n ++ ". " ++ r.original_url ++ "\n" ++
  "   Service: " ++ r.service ++ "\n" ++
  (if r.success then "   Solved: " ++ (r.solved_url.getD "") ++ "\n"
   else "   Failed: " ++ (r.error.getD "Unknown error") ++ "\n") ++
  "   Time: " ++ jsonOptTime (some (r.response_time.getD 0)) ++ "s\n"

/-- `EnhancedABLinksSolver.export_results` (lines 210-245), with
`Except.error` modelling an exception escaping the call.  The `json`
branch evaluates `json.dumps`, but `json` is a free name in this module
(`module_imports` does not contain it), so the name lookup fails and
Python raises `NameError` before producing any output.  The `text` branch
formats `result.response_time` with `:.2f`, which raises `TypeError` when
the value is `None`. -/
def export_results (results : List SolveResult) (format : String) :
    Except String String :=
  if format = "json" then
    if module_imports.contains "json" then .ok (jsonRender results)
    else .error "NameError: name 'json' is not defined"
  else if format = "csv" then
    .ok (String.intercalate "\n"
      ("original_url,service,solved_url,success,response_time,error" ::
        results.map csvRow))
  else
    if results.all (fun r => r.response_time.isSome) then
      .ok (String.intercalate "\n"
        ((enumIdx 1 results).map (fun p => textEntry p.1 p.2)))
    else .error "TypeError: unsupported format string passed to NoneType.__format__"

/-- Environment in which every attempt fails with a transport error. -/
def failFetch : Fetch := fun _ _ _ => .reqErr "connection error"

/-- Environment whose attempt 0 fails with a transport error and whose
later attempts succeed. -/
def flakyFetch : Fetch := fun _ _ j =>
  if j = 0 then .reqErr "timeout" else .ok ⟨"https://final.example.com", "body"⟩

/-- Environment in which every attempt raises an exception that is not a
`RequestException`. -/
def exnFetch : Fetch := fun _ _ _ => .exn "boom"

/-- Environment that always succeeds with a final URL equal to the
requested URL (no redirect happened). -/
def echoFetch : Fetch := fun u _ _ => .ok ⟨u, ""⟩

/-! ### Helper lemmas about `safe_request` -/

theorem safe_request_go_attempts_le (f : Fetch) (u : String) (b : Bool) (m : Nat) :
    ∀ fuel attempt, (safe_request_go f u b m fuel attempt).attempts ≤ fuel := by
  intro fuel
  induction fuel with
  | zero => intro attempt; simp [safe_request_go]
  | succ n ih =>
    intro attempt
    rw [safe_request_go]
    cases f u b attempt with
    | ok r => simp
    | exn e => simp
    | reqErr msg =>
      by_cases h : attempt = m - 1
      · simp [h]
      · simp only [h, if_false]
        show (safe_request_go f u b m n (attempt + 1)).attempts + 1 ≤ n + 1
        have := ih (attempt + 1)
        omega

theorem safe_request_go_allFail (f : Fetch) (u : String) (b : Bool) (m : Nat) :
    ∀ fuel attempt, fuel + attempt = m →
      (∀ j, attempt ≤ j → j < m → ∃ msg, f u b j = .reqErr msg) →
      safe_request_go f u b m fuel attempt =
        ⟨.ok none, fuel, (List.range' attempt (fuel - 1)).map (fun i => 2 ^ i)⟩ := by
  intro fuel
  induction fuel with
  | zero => intro attempt _ _; simp [safe_request_go]
  | succ n ih =>
    intro attempt hm hfail
    obtain ⟨msg, hmsg⟩ := hfail attempt (le_refl _) (by omega)
    rw [safe_request_go, hmsg]
    by_cases h : attempt = m - 1
    · have hn : n = 0 := by omega
      subst hn
      simp [h]
    · have hn : 0 < n := by omega
      simp only [h, if_false]
      rw [ih (attempt + 1) (by omega)
        (fun j hj hj2 => hfail j (by omega) hj2)]
      have hrange : List.range' attempt n =
          attempt :: List.range' (attempt + 1) (n - 1) := by
        have h2 : n = (n - 1) + 1 := by omega
        rw [h2, List.range'_succ]
        simp
      simp [hrange]

theorem safe_request_go_firstSuccess (f : Fetch) (u : String) (b : Bool) (m : Nat) :
    ∀ fuel attempt k r, fuel + attempt = m → attempt ≤ k → k < m →
      (∀ j, attempt ≤ j → j < k → ∃ msg, f u b j = .reqErr msg) →
      f u b k = .ok r →
      safe_request_go f u b m fuel attempt =
        ⟨.ok (some r), k + 1 - attempt,
          (List.range' attempt (k - attempt)).map (fun i => 2 ^ i)⟩ := by
  intro fuel
  induction fuel with
  | zero => intro attempt k r hm hak hkm _ _; omega
  | succ n ih =>
    intro attempt k r hm hak hkm hfail hok
    by_cases hk : attempt = k
    · subst hk
      rw [safe_request_go, hok]
      simp
    · obtain ⟨msg, hmsg⟩ := hfail attempt (le_refl _) (by omega)
      rw [safe_request_go, hmsg]
      have hne : ¬ (attempt = m - 1) := by omega
      simp only [hne, if_false]
      rw [ih (attempt + 1) k r (by omega) (by omega) hkm
        (fun j hj hj2 => hfail j (by omega) hj2) hok]
      have hrange : List.range' attempt (k - attempt) =
          attempt :: List.range' (attempt + 1) (k - (attempt + 1)) := by
        have h2 : k - attempt = (k - (attempt + 1)) + 1 := by omega
        rw [h2, List.range'_succ]
      have hatt : k + 1 - (attempt + 1) + 1 = k + 1 - attempt := by omega
      rw [hrange]
      simp only [List.map_cons, ReqTrace.mk.injEq]
      exact ⟨trivial, hatt, trivial⟩

theorem safe_request_go_none (f : Fetch) (u : String) (b : Bool) (m : Nat) :
    ∀ fuel attempt, fuel + attempt = m →
      (safe_request_go f u b m fuel attempt).result = .ok none →
      ∀ j, attempt ≤ j → j < m → ∃ msg, f u b j = .reqErr msg := by
  intro fuel
  induction fuel with
  | zero => intro attempt hm _ j hj hj2; omega
  | succ n ih =>
    intro attempt hm hres j hj hj2
    rcases hfetch : f u b attempt with r | msg | e
    · rw [safe_request_go, hfetch] at hres; simp at hres
    · by_cases h : attempt = m - 1
      · have hja : j = attempt := by omega
        exact ⟨msg, hja ▸ hfetch⟩
      · rw [safe_request_go, hfetch] at hres
        simp only [h, if_false] at hres
        rcases Nat.eq_or_lt_of_le hj with hj' | hj'
        · exact ⟨msg, hj' ▸ hfetch⟩
        · exact ih (attempt + 1) (by omega) hres j (by omega) hj2
    · rw [safe_request_go, hfetch] at hres; simp at hres

/-! ### Helper lemmas about `descramble` and the URL search -/

theorem descrambleGo_perm : ∀ (l : List Char) (i : Nat) (acc : List Char),
    List.Perm (descrambleGo i l acc) (acc ++ l) := by
  intro l
  induction l with
  | nil => intro i acc; simp [descrambleGo]
  | cons c cs ih =>
    intro i acc
    rw [descrambleGo]
    by_cases h : i % 2 = 0
    · simp only [h, if_true]
      have h1 := ih (i + 1) (acc ++ [c])
      have h2 : acc ++ [c] ++ cs = acc ++ c :: cs := by simp
      exact h2 ▸ h1
    · simp only [h, if_false]
      have h1 := ih (i + 1) (c :: acc)
      refine h1.trans ?_
      show List.Perm (c :: (acc ++ cs)) (acc ++ c :: cs)
      exact List.perm_middle.symm

theorem descramble_perm (l : List Char) : List.Perm (descramble l) l := by
  simpa using descrambleGo_perm l 0 []

theorem findUrlGo_isInfix : ∀ (s u : List Char), findUrlGo s = some u → List.IsInfix u s := by
  intro s
  induction s with
  | nil => intro u h; simp [findUrlGo] at h
  | cons c rest ih =>
    intro u h
    rw [findUrlGo] at h
    cases hm : urlMatchLen (c :: rest) with
    | some n =>
      rw [hm] at h
      have hu : u = (c :: rest).take n := by
        injection h with h2
        exact h2.symm
      exact hu ▸ (List.take_prefix n (c :: rest)).isInfix
    | none =>
      rw [hm] at h
      exact (ih u h).trans (List.infix_cons (List.infix_refl rest))

/-! ### Helper lemmas about the pattern matchers -/

theorem stripCI_cons {c : Char} {cs s r : List Char} (h : stripCI (c :: cs) s = some r) :
    ∃ x xs, s = x :: xs ∧ c.toLower = x.toLower ∧ stripCI cs xs = some r := by
  cases s with
  | nil => simp [stripCI] at h
  | cons x xs =>
    rw [stripCI] at h
    by_cases hx : lowerEq c x
    · refine ⟨x, xs, rfl, ?_, ?_⟩
      · have := of_decide_eq_true hx
        exact this
      · simpa [hx] using h
    · simp [hx] at h

theorem schemeCandidates_unique {s : List Char} {a b : List Char}
    (ha : a ∈ schemeCandidates s) (hb : b ∈ schemeCandidates s) : a = b := by
  unfold schemeCandidates at ha hb
  cases hh : stripCI ("http".toList) s with
  | none => simp only [hh] at ha; simp at ha
  | some r =>
    simp only [hh] at ha hb
    cases hs : stripCI ("s://".toList) r with
    | some a1 =>
      cases hc : stripCI ("://".toList) r with
      | some a2 =>
        obtain ⟨x, xs, hx, hlow, -⟩ := stripCI_cons hs
        obtain ⟨y, ys, hy, hlow2, -⟩ := stripCI_cons hc
        rw [hx] at hy
        injection hy with hy1 _
        rw [← hy1] at hlow2
        rw [← hlow2] at hlow
        simp at hlow
      | none =>
        simp only [hs, hc] at ha hb
        simp at ha hb
        rw [ha, hb]
    | none =>
      cases hc : stripCI ("://".toList) r with
      | some a2 =>
        simp only [hs, hc] at ha hb
        simp at ha hb
        rw [ha, hb]
      | none =>
        simp only [hs, hc] at ha
        simp at ha

theorem wwwCandidates_cases {r2 r3 : List Char} (h : r3 ∈ wwwCandidates r2) :
    r3 = r2 ∨ stripCI ("www.".toList) r2 = some r3 := by
  unfold wwwCandidates at h
  cases hw : stripCI ("www.".toList) r2 with
  | none => simp only [hw] at h; simp at h; exact Or.inl h
  | some w =>
    simp only [hw] at h
    simp at h
    rcases h with h | h
    · exact Or.inr (by rw [h])
    · exact Or.inl h

theorem hostTailMatch_elim {host : List Char} {tail : List Char → Bool} {s : List Char}
    (h : hostTailMatch host tail s = true) :
    ∃ r2 ∈ schemeCandidates s, ∃ r3 ∈ wwwCandidates r2, ∃ r4,
      stripCI host r3 = some r4 ∧ tail r4 = true := by
  unfold hostTailMatch at h
  rw [List.any_eq_true] at h
  obtain ⟨r2, hr2, h⟩ := h
  rw [List.any_eq_true] at h
  obtain ⟨r3, hr3, h⟩ := h
  cases hst : stripCI host r3 with
  | none => simp only [hst] at h; simp at h
  | some r4 =>
    simp only [hst] at h
    exact ⟨r2, hr2, r3, hr3, r4, hst, h⟩

/-- Two of the service patterns cannot both match when their host literals
begin with distinct letters: the scheme remainder is unique, and a host
cannot begin where `www.` was both taken and not taken unless its first
letter is `w`, which none of the hosts' first letters are. -/
theorem hostTailMatch_exclusive (c1 c2 : Char) (tl1 tl2 : List Char)
    (t1 t2 : List Char → Bool) (s : List Char)
    (hne : c1.toLower ≠ c2.toLower) (hw1 : c1.toLower ≠ 'w') (hw2 : c2.toLower ≠ 'w')
    (h1 : hostTailMatch (c1 :: tl1) t1 s = true) :
    hostTailMatch (c2 :: tl2) t2 s = false := by
  by_contra hcon
  have h2 : hostTailMatch (c2 :: tl2) t2 s = true := by
    cases hval : hostTailMatch (c2 :: tl2) t2 s
    · exact absurd hval hcon
    · rfl
  obtain ⟨r2, hr2, r3, hr3, r4, hst, -⟩ := hostTailMatch_elim h1
  obtain ⟨r2x, hr2x, r3x, hr3x, r4x, hstx, -⟩ := hostTailMatch_elim h2
  have hr2eq : r2 = r2x := schemeCandidates_unique hr2 hr2x
  subst hr2eq
  obtain ⟨x, xs, hx, hlow, -⟩ := stripCI_cons hst
  obtain ⟨y, ys, hy, hlowx, -⟩ := stripCI_cons hstx
  rcases wwwCandidates_cases hr3 with hc | hc <;>
    rcases wwwCandidates_cases hr3x with hcx | hcx
  · -- both alternatives skipped `www.`: the same head character would have
    -- to match both distinct host letters
    have hxy : x = y := by
      have h3 : (x :: xs : List Char) = y :: ys := by rw [← hx, ← hy, hc, hcx]
      injection h3
    exact hne (by rw [hlow, hlowx, hxy])
  · -- first skipped `www.`, second took it: the first host letter is `w`
    obtain ⟨z, zs, hz, hlz, -⟩ := stripCI_cons hcx
    have hxz : x = z := by
      have h3 : (x :: xs : List Char) = z :: zs := by rw [← hx, hc, hz]
      injection h3
    refine hw1 ?_
    rw [hlow, hxz, ← hlz]
    decide
  · -- first took `www.`, second skipped it: the second host letter is `w`
    obtain ⟨z, zs, hz, hlz, -⟩ := stripCI_cons hc
    have hyz : y = z := by
      have h3 : (y :: ys : List Char) = z :: zs := by rw [← hy, hcx, hz]
      injection h3
    refine hw2 ?_
    rw [hlowx, hyz, ← hlz]
    decide
  · -- both took `www.`: the remainders coincide, so the same head character
    -- would have to match both distinct host letters
    have hr3eq : r3 = r3x := by
      rw [hcx] at hc
      injection hc with h4
      exact h4.symm
    have hxy : x = y := by
      have h3 : (x :: xs : List Char) = y :: ys := by rw [← hx, ← hy, hr3eq]
      injection h3
    exact hne (by rw [hlow, hlowx, hxy])

theorem hostAd1 : ("adf.ly/".toList) = 'a' :: "df.ly/".toList := by decide

theorem hostAd2 : ("adfoc.us/".toList) = 'a' :: "dfoc.us/".toList := by decide

theorem hostLv1 : ("linkvertise.com/".toList) = 'l' :: "inkvertise.com/".toList := by decide

theorem hostLv2 : ("link-to.net/".toList) = 'l' :: "ink-to.net/".toList := by decide

theorem hostGy : ("gyanilinks.com/".toList) = 'g' :: "yanilinks.com/".toList := by decide

theorem hostSc : ("shortconnect.com/".toList) = 's' :: "hortconnect.com/".toList := by decide

theorem detect_of_adfly1 (url : String) (h : adflyPat1 url = true) :
    detect_service url = "adfly" := by
  simp [detect_service, service_patterns, List.find?, h]

theorem detect_of_lv1 (url : String) (h : lvPat1 url = true) :
    detect_service url = "linkvertise" := by
  rw [lvPat1, hostLv1] at h
  have ha1 : adflyPat1 url = false := by
    rw [adflyPat1, hostAd1]
    exact hostTailMatch_exclusive 'l' 'a' _ _ _ _ _ (by decide) (by decide) (by decide) h
  have ha2 : adflyPat2 url = false := by
    rw [adflyPat2, hostAd2]
    exact hostTailMatch_exclusive 'l' 'a' _ _ _ _ _ (by decide) (by decide) (by decide) h
  have hl1 : lvPat1 url = true := by rw [lvPat1, hostLv1]; exact h
  simp [detect_service, service_patterns, List.find?, ha1, ha2, hl1]

theorem detect_of_gy1 (url : String) (h : gyPat1 url = true) :
    detect_service url = "gyanilinks" := by
  rw [gyPat1, hostGy] at h
  have ha1 : adflyPat1 url = false := by
    rw [adflyPat1, hostAd1]
    exact hostTailMatch_exclusive 'g' 'a' _ _ _ _ _ (by decide) (by decide) (by decide) h
  have ha2 : adflyPat2 url = false := by
    rw [adflyPat2, hostAd2]
    exact hostTailMatch_exclusive 'g' 'a' _ _ _ _ _ (by decide) (by decide) (by decide) h
  have hl1 : lvPat1 url = false := by
    rw [lvPat1, hostLv1]
    exact hostTailMatch_exclusive 'g' 'l' _ _ _ _ _ (by decide) (by decide) (by decide) h
  have hl2 : lvPat2 url = false := by
    rw [lvPat2, hostLv2]
    exact hostTailMatch_exclusive 'g' 'l' _ _ _ _ _ (by decide) (by decide) (by decide) h
  have hg : gyPat1 url = true := by rw [gyPat1, hostGy]; exact h
  simp [detect_service, service_patterns, List.find?, ha1, ha2, hl1, hl2, hg]

theorem detect_of_sc1 (url : String) (h : scPat1 url = true) :
    detect_service url = "shortconnect" := by
  rw [scPat1, hostSc] at h
  have ha1 : adflyPat1 url = false := by
    rw [adflyPat1, hostAd1]
    exact hostTailMatch_exclusive 's' 'a' _ _ _ _ _ (by decide) (by decide) (by decide) h
  have ha2 : adflyPat2 url = false := by
    rw [adflyPat2, hostAd2]
    exact hostTailMatch_exclusive 's' 'a' _ _ _ _ _ (by decide) (by decide) (by decide) h
  have hl1 : lvPat1 url = false := by
    rw [lvPat1, hostLv1]
    exact hostTailMatch_exclusive 's' 'l' _ _ _ _ _ (by decide) (by decide) (by decide) h
  have hl2 : lvPat2 url = false := by
    rw [lvPat2, hostLv2]
    exact hostTailMatch_exclusive 's' 'l' _ _ _ _ _ (by decide) (by decide) (by decide) h
  have hg : gyPat1 url = false := by
    rw [gyPat1, hostGy]
    exact hostTailMatch_exclusive 's' 'g' _ _ _ _ _ (by decide) (by decide) (by decide) h
  have hs : scPat1 url = true := by rw [scPat1, hostSc]; exact h
  simp [detect_service, service_patterns, List.find?, ha1, ha2, hl1, hl2, hg, hs]

theorem detect_of_none (url : String)
    (h : ∀ sp ∈ service_patterns, ∀ p ∈ sp.2, p url = false) :
    detect_service url = "unknown" := by
  have ha1 := h ("adfly", [adflyPat1, adflyPat2]) (by simp [service_patterns])
    adflyPat1 (by simp)
  have ha2 := h ("adfly", [adflyPat1, adflyPat2]) (by simp [service_patterns])
    adflyPat2 (by simp)
  have hl1 := h ("linkvertise", [lvPat1, lvPat2]) (by simp [service_patterns])
    lvPat1 (by simp)
  have hl2 := h ("linkvertise", [lvPat1, lvPat2]) (by simp [service_patterns])
    lvPat2 (by simp)
  have hg := h ("gyanilinks", [gyPat1]) (by simp [service_patterns]) gyPat1 (by simp)
  have hs := h ("shortconnect", [scPat1]) (by simp [service_patterns]) scPat1 (by simp)
  simp only at ha1 ha2 hl1 hl2 hg hs
  simp [detect_service, service_patterns, List.find?, ha1, ha2, hl1, hl2, hg, hs]

/-! ### Helper lemmas about `url_order` and the batch sort -/

theorem mem_enumIdx {α : Type} :
    ∀ (l : List α) (i : Nat) (p : Nat × α), p ∈ enumIdx i l → p.2 ∈ l := by
  intro l
  induction l with
  | nil => intro i p h; simp [enumIdx] at h
  | cons v vs ih =>
    intro i p h
    rw [enumIdx] at h
    rcases List.mem_cons.mp h with h | h
    · rw [h]; exact List.mem_cons_self _ _
    · exact List.mem_cons_of_mem _ (ih (i + 1) p h)

theorem getD_mem {α : Type} :
    ∀ (l : List α) (j : Nat) (d : α), j < l.length → l.getD j d ∈ l := by
  intro l
  induction l with
  | nil => intro j d h; simp at h
  | cons v vs ih =>
    intro j d h
    cases j with
    | zero => simp
    | succ k =>
      simp only [List.getD_cons_succ]
      exact List.mem_cons_of_mem _ (ih k d (by simpa using h))

theorem enumIdx_filter_eq {urls : List String} (hnd : urls.Nodup) :
    ∀ (j i : Nat), j < urls.length →
      (enumIdx i urls).filter (fun p => p.2 = urls.getD j "") =
        [(i + j, urls.getD j "")] := by
  induction urls with
  | nil => intro j i h; simp at h
  | cons v vs ih =>
    intro j i h
    have hvnotin : v ∉ vs := (List.nodup_cons.mp hnd).1
    cases j with
    | zero =>
      simp only [List.getD_cons_zero, enumIdx, List.filter_cons]
      have hnil : (enumIdx (i + 1) vs).filter (fun p => p.2 = v) = [] := by
        rw [List.filter_eq_nil_iff]
        intro p hp
        have := mem_enumIdx vs (i + 1) p hp
        simp only [decide_eq_true_eq]
        intro hpv
        exact hvnotin (hpv ▸ this)
      simp [hnil]
    | succ k =>
      have hk : k < vs.length := by simpa using h
      simp only [List.getD_cons_succ, enumIdx, List.filter_cons]
      have hpred : (decide (v = vs.getD k "")) = false := by
        simp only [decide_eq_false_iff_not]
        intro hv
        exact hvnotin (hv ▸ getD_mem vs k "" hk)
      simp only [hpred, Bool.false_eq_true, if_false]
      rw [ih (List.nodup_cons.mp hnd).2 k (i + 1) hk]
      have hik : i + 1 + k = i + (k + 1) := by omega
      rw [hik]

theorem url_order_getD (urls : List String) (hnd : urls.Nodup) (j : Nat)
    (hj : j < urls.length) : url_order urls (urls.getD j "") = j := by
  unfold url_order
  rw [enumIdx_filter_eq hnd j 0 hj]
  simp

theorem solve_single_orig (fetch : Fetch) (m : Nat) (elapsed : ℚ) (url : String) :
    (solve_single fetch m elapsed url).original_url = url := by
  cases h : dispatchStrategy fetch m url <;> simp [solve_single, h]

theorem taskResult_orig (fetch : Fetch) (m : Nat) (elapsedOf : Nat → ℚ)
    (faults : Nat → Option String) (urls : List String) (j : Nat) :
    (taskResult fetch m elapsedOf faults urls j).original_url = urls.getD j "" := by
  cases h : faults j <;> simp [taskResult, h, solve_single_orig]

theorem sortByKey_of_distinct (key : SolveResult → Nat) (task : Nat → SolveResult)
    (order : List Nat) (n : Nat) (hperm : List.Perm order (List.range n))
    (hkey : ∀ j ∈ order, key (task j) = j) :
    List.insertionSort (fun a b => key a ≤ key b) (order.map task) =
      (List.range n).map task := by
  haveI htot : IsTotal SolveResult (fun a b => key a ≤ key b) :=
    ⟨fun a b => Nat.le_total (key a) (key b)⟩
  haveI htrans : IsTrans SolveResult (fun a b => key a ≤ key b) :=
    ⟨fun a b c hab hbc => le_trans hab hbc⟩
  set S := List.insertionSort (fun a b => key a ≤ key b) (order.map task) with hS
  have hsorted : List.Sorted (fun a b => key a ≤ key b) S :=
    List.sorted_insertionSort (fun a b => key a ≤ key b) (order.map task)
  have hpermsort : List.Perm S (order.map task) :=
    List.perm_insertionSort (fun a b => key a ≤ key b) (order.map task)
  have hlen : S.length = n := by
    rw [hS, List.length_insertionSort, List.length_map, hperm.length_eq, List.length_range]
  have hmapkey : (order.map task).map key = order := by
    rw [List.map_map]
    have hcongr : ∀ j ∈ order, (key ∘ task) j = j := fun j hj => hkey j hj
    calc order.map (key ∘ task) = order.map id := List.map_congr_left hcongr
      _ = order := List.map_id order
  have hkeysorted : S.map key = List.range n := by
    haveI : IsAntisymm Nat (· ≤ ·) := ⟨fun a b h1 h2 => Nat.le_antisymm h1 h2⟩
    refine List.eq_of_perm_of_sorted (r := (· ≤ ·))
      ((hpermsort.map key).trans (by rw [hmapkey]; exact hperm)) ?_ ?_
    · rw [List.Sorted, List.pairwise_map]
      exact hsorted
    · exact List.sorted_le_range n
  apply List.ext_getElem
  · rw [hlen, List.length_map, List.length_range]
  intro i hi1 hi2
  have hin : i < n := by rw [hlen] at hi1; exact hi1
  have hkeyi : key (S[i]) = i := by
    have h1 : (S.map key)[i]? = some i := by
      rw [hkeysorted]
      rw [List.getElem?_range hin]
    have h2 : S[i]? = some (S[i]) := List.getElem?_eq_getElem hi1
    rw [List.getElem?_map, h2] at h1
    simpa using h1
  have hmem : S[i] ∈ order.map task := hpermsort.mem_iff.mp (List.getElem_mem hi1)
  obtain ⟨j, hj, htj⟩ := List.mem_map.mp hmem
  have hji : j = i := by rw [← hkeyi, ← htj]; exact (hkey j hj).symm
  rw [List.getElem_map, List.getElem_range, ← htj, hji]

theorem dispatch_allFail (fetch : Fetch) (m : Nat) (url : String)
    (hfail : ∀ b j, j < m → ∃ msg, fetch url b j = .reqErr msg) :
    dispatchStrategy fetch m url = .ok none := by
  have hsr : ∀ b, safe_request fetch url b m =
      ⟨.ok none, m, (List.range' 0 (m - 1)).map (fun i => 2 ^ i)⟩ := fun b => by
    rw [safe_request, safe_request_go_allFail fetch url b m m 0 (by omega)
      (fun j hj hj2 => hfail b j hj2)]
  simp only [dispatchStrategy]
  split_ifs with h1 h2 h3 h4
  · simp [extract_adfly_link, hsr false]
  · simp [extract_linkvertise_link, hsr true]
  · simp [extract_adfly_link, hsr false]
  · simp [hsr true]
  · rfl

theorem solve_batch_length (fetch : Fetch) (m : Nat) (elapsedOf : Nat → ℚ)
    (faults : Nat → Option String) (urls : List String) (order : List Nat)
    (hperm : List.Perm order (List.range urls.length)) :
    (solve_batch fetch m elapsedOf faults urls order).length = urls.length := by
  simp only [solve_batch, pySortByKey]
  rw [List.length_insertionSort, List.length_map, hperm.length_eq, List.length_range]

theorem solve_batch_map_orig (fetch : Fetch) (m : Nat) (elapsedOf : Nat → ℚ)
    (faults : Nat → Option String) (urls : List String) (order : List Nat)
    (hperm : List.Perm order (List.range urls.length)) (hnd : urls.Nodup) :
    (solve_batch fetch m elapsedOf faults urls order).map
      (fun r => r.original_url) = urls := by
  have hkey : ∀ j ∈ order,
      (fun r => url_order urls r.original_url)
        (taskResult fetch m elapsedOf faults urls j) = j := by
    intro j hj
    have hjn : j < urls.length := List.mem_range.mp (hperm.mem_iff.mp hj)
    simp only [taskResult_orig]
    exact url_order_getD urls hnd j hjn
  simp only [solve_batch, pySortByKey]
  rw [sortByKey_of_distinct (fun r => url_order urls r.original_url)
    (taskResult fetch m elapsedOf faults urls) order urls.length hperm hkey]
  rw [List.map_map]
  apply List.ext_getElem
  · rw [List.length_map, List.length_range]
  intro i hi1 hi2
  rw [List.getElem_map, List.getElem_range]
  show (taskResult fetch m elapsedOf faults urls i).original_url = urls[i]
  rw [taskResult_orig]
  exact List.getD_eq_getElem urls "" (by simpa using hi1)

/-! ### Claims -/

/-- Claim C1, counterexample: for the adfly URL `https://adf.ly/123/x`
(whose service has a strategy), when every fetch attempt fails with a
transport error, `solve_single` returns `success = false` but its `error`
field is `None`, not a non-null error string as the claim asserts. -/
theorem c1_counterexample :
    detect_service "https://adf.ly/123/x" = "adfly"
    ∧ (solve_single failFetch 3 1 "https://adf.ly/123/x").success = false
    ∧ (solve_single failFetch 3 1 "https://adf.ly/123/x").error = none := by
  refine ⟨by decide, by decide, by decide⟩

/-- Claim C1, amended: for every URL whose service has a strategy, if every
fetch attempt fails with a transport error, `solve_single` returns
`success = false` with `solved_url = None` and `error = None` (no error
text is recorded), and `safe_request` performs exactly `max_retries`
attempts. -/
theorem c1_amended (fetch : Fetch) (m : Nat) (t : ℚ) (url : String)
    (hfail : ∀ b j, j < m → ∃ msg, fetch url b j = .reqErr msg)
    (_hknown : detect_service url ≠ "unknown") :
    (solve_single fetch m t url).success = false
    ∧ (solve_single fetch m t url).solved_url = none
    ∧ (solve_single fetch m t url).error = none
    ∧ (∀ b, (safe_request fetch url b m).attempts = m) := by
  have hd := dispatch_allFail fetch m url hfail
  refine ⟨by simp [solve_single, hd], by simp [solve_single, hd],
    by simp [solve_single, hd], ?_⟩
  intro b
  rw [safe_request, safe_request_go_allFail fetch url b m m 0 (by omega)
    (fun j hj hj2 => hfail b j hj2)]

/-- Claim C1, witness for the amended theorem at a concrete failing
environment. -/
theorem c1_witness :
    (solve_single failFetch 3 1 "https://adf.ly/123/x").success = false
    ∧ (solve_single failFetch 3 1 "https://adf.ly/123/x").error = none
    ∧ (safe_request failFetch "https://adf.ly/123/x" false 3).attempts = 3 := by
  have h := c1_amended failFetch 3 1 "https://adf.ly/123/x"
    (fun b j hj => ⟨"connection error", rfl⟩) (by decide)
  exact ⟨h.1, h.2.2.1, h.2.2.2 false⟩

/-- Claim C2, counterexample: with the duplicate-containing input
`["a", "b", "a"]` and tasks completing in submission order, order
restoration keys on the **last** index of each URL value, so the returned
sequence has `original_url` values `["b", "a", "a"]` — the result at
position 0 does not correspond to `urls[0] = "a"`. -/
theorem c2_counterexample :
    (solve_batch failFetch 1 (fun _ => 1) (fun _ => none) ["a", "b", "a"]
      [0, 1, 2]).map (fun r => r.original_url) = ["b", "a", "a"]
    ∧ (["b", "a", "a"] : List String) ≠ ["a", "b", "a"] := by
  refine ⟨by decide, by decide⟩

/-- Claim C2, amended: `solve_batch` returns exactly one result per input
URL (length `len(urls)`) for every completion order, and when the input
URLs are pairwise distinct the results are in input order (result `i` has
`original_url = urls[i]`) regardless of completion order; with duplicate
URLs the order-restoration key is the last index of the URL value, so
results can be placed at other positions. -/
theorem c2_amended (fetch : Fetch) (m : Nat) (elapsedOf : Nat → ℚ)
    (faults : Nat → Option String) (urls : List String) (order : List Nat)
    (hperm : List.Perm order (List.range urls.length)) :
    (solve_batch fetch m elapsedOf faults urls order).length = urls.length
    ∧ (urls.Nodup →
        (solve_batch fetch m elapsedOf faults urls order).map
          (fun r => r.original_url) = urls) :=
  ⟨solve_batch_length fetch m elapsedOf faults urls order hperm,
    fun hnd => solve_batch_map_orig fetch m elapsedOf faults urls order hperm hnd⟩

/-- Claim C2, witness for the amended theorem: two distinct URLs resolved
with completion order reversed still come back in input order. -/
theorem c2_witness :
    (solve_batch failFetch 3 (fun _ => 1) (fun _ => none)
      ["https://adf.ly/1/a", "https://example.com/b"] [1, 0]).length = 2
    ∧ (solve_batch failFetch 3 (fun _ => 1) (fun _ => none)
        ["https://adf.ly/1/a", "https://example.com/b"] [1, 0]).map
          (fun r => r.original_url)
        = ["https://adf.ly/1/a", "https://example.com/b"] := by
  have h := c2_amended failFetch 3 (fun _ => 1) (fun _ => none)
    ["https://adf.ly/1/a", "https://example.com/b"] [1, 0] (by decide)
  exact ⟨h.1, h.2 (by decide)⟩

/-- Claim C3, counterexample: a batch whose single worker task faults hands
the caller a synthesized result whose `response_time` is `None`, not a
populated positive value as the claim asserts. -/
theorem c3_counterexample :
    (solve_batch failFetch 3 (fun _ => 1) (fun _ => some "boom") ["a"] [0]).map
      (fun r => r.response_time) = [none] := by
  decide

/-- Claim C3, amended: every result produced by `solve_single` has
`response_time` populated with the measured elapsed wall-clock time, but a
result synthesized by `solve_batch` for a faulted worker task is handed to
the caller with `response_time = None` (and no strict positivity is
enforced anywhere by the code). -/
theorem c3_amended (fetch : Fetch) (m : Nat) (elapsedOf : Nat → ℚ)
    (faults : Nat → Option String) (urls : List String) :
    (∀ t url, (solve_single fetch m t url).response_time = some t)
    ∧ (∀ j e, faults j = some e →
        (taskResult fetch m elapsedOf faults urls j).response_time = none) := by
  constructor
  · intro t url
    cases h : dispatchStrategy fetch m url <;> simp [solve_single, h]
  · intro j e h
    simp [taskResult, h]

/-- Claim C3, witness for the amended theorem at a concrete faulted task. -/
theorem c3_witness :
    (taskResult failFetch 3 (fun _ => 1) (fun _ => some "boom") ["a"] 0).response_time
      = none :=
  (c3_amended failFetch 3 (fun _ => 1) (fun _ => some "boom") ["a"]).2 0 "boom" rfl

/-- Claim C4, counterexample: for the adfly URL `https://adf.ly/123/x`, an
exception raised inside the strategy (a non-`RequestException` propagating
out of `safe_request` during `extract_adfly_link`) is swallowed by the
strategy's own `except Exception` block: the returned result has
`success = false` but `error = None`, not the claimed error string. -/
theorem c4_counterexample :
    detect_service "https://adf.ly/123/x" = "adfly"
    ∧ (safe_request exnFetch "https://adf.ly/123/x" false 3).result = .error "boom"
    ∧ (solve_single exnFetch 3 1 "https://adf.ly/123/x").success = false
    ∧ (solve_single exnFetch 3 1 "https://adf.ly/123/x").error = none := by
  refine ⟨by decide, rfl, by decide, by decide⟩

/-- Claim C4, amended: `solve_single` is a total function into
`SolveResult` — no exception propagates to its caller — but only an
exception that escapes the strategy dispatch into `solve_single`'s own
handler (possible only in the shortconnect branch, whose `safe_request`
call is bare) is captured as the result's `error` string.  An exception
raised during the adfly, gyanilinks or linkvertise strategies is swallowed
by those strategies' own `except Exception` handlers: the strategy returns
`None`, and the result has `success = false`, `solved_url = None` and
`error = None` — no error string. -/
theorem c4_amended (fetch : Fetch) (m : Nat) (t : ℚ) (url : String) :
    (solve_single fetch m t url).original_url = url
    ∧ (∀ e, dispatchStrategy fetch m url = .error e →
        (solve_single fetch m t url).success = false
        ∧ (solve_single fetch m t url).error = some e
        ∧ (solve_single fetch m t url).solved_url = none)
    ∧ (∀ e, (safe_request fetch url false m).result = .error e →
        extract_adfly_link fetch m url = none)
    ∧ (∀ e, (safe_request fetch url true m).result = .error e →
        extract_linkvertise_link fetch m url = none)
    ∧ (∀ e, detect_service url = "adfly" ∨ detect_service url = "gyanilinks" →
        (safe_request fetch url false m).result = .error e →
        (solve_single fetch m t url).success = false
        ∧ (solve_single fetch m t url).solved_url = none
        ∧ (solve_single fetch m t url).error = none)
    ∧ (∀ e, detect_service url = "linkvertise" →
        (safe_request fetch url true m).result = .error e →
        (solve_single fetch m t url).success = false
        ∧ (solve_single fetch m t url).solved_url = none
        ∧ (solve_single fetch m t url).error = none) := by
  refine ⟨solve_single_orig fetch m t url, ?_, ?_, ?_, ?_, ?_⟩
  · intro e he
    refine ⟨?_, ?_, ?_⟩ <;> simp [solve_single, he]
  · intro e he
    simp [extract_adfly_link, he]
  · intro e he
    simp [extract_linkvertise_link, he]
  · intro e hdet he
    have hex : extract_adfly_link fetch m url = none := by
      simp [extract_adfly_link, he]
    rcases hdet with hdet | hdet <;>
      refine ⟨?_, ?_, ?_⟩ <;> simp [solve_single, dispatchStrategy, hdet, hex]
  · intro e hdet he
    have hex : extract_linkvertise_link fetch m url = none := by
      simp [extract_linkvertise_link, he]
    refine ⟨?_, ?_, ?_⟩ <;> simp [solve_single, dispatchStrategy, hdet, hex]

/-- Claim C4, witness for the amended theorem: the same raising environment
is captured as an error string at the shortconnect dispatch boundary but
swallowed to `error = None` inside the adfly strategy. -/
theorem c4_witness :
    (solve_single exnFetch 3 1 "https://shortconnect.com/abc").success = false
    ∧ (solve_single exnFetch 3 1 "https://shortconnect.com/abc").error = some "boom"
    ∧ (solve_single exnFetch 3 1 "https://adf.ly/123/x").success = false
    ∧ (solve_single exnFetch 3 1 "https://adf.ly/123/x").error = none := by
  have h1 := (c4_amended exnFetch 3 1 "https://shortconnect.com/abc").2.1 "boom" rfl
  have h2 := (c4_amended exnFetch 3 1 "https://adf.ly/123/x").2.2.2.2.1 "boom"
    (Or.inl (by decide)) rfl
  exact ⟨h1.1, h1.2.1, h2.1, h2.2.2⟩

/-- Claim C5 (confirmed): `detect_service` is a total pure function (a Lean
function by construction); any URL matching a service's first-listed
pattern is classified as that service, and a URL matching no pattern of any
service is classified `unknown`. -/
theorem c5_detect_service (url : String) :
    (adflyPat1 url = true → detect_service url = "adfly")
    ∧ (lvPat1 url = true → detect_service url = "linkvertise")
    ∧ (gyPat1 url = true → detect_service url = "gyanilinks")
    ∧ (scPat1 url = true → detect_service url = "shortconnect")
    ∧ ((∀ sp ∈ service_patterns, ∀ p ∈ sp.2, p url = false) →
        detect_service url = "unknown") :=
  ⟨detect_of_adfly1 url, detect_of_lv1 url, detect_of_gy1 url, detect_of_sc1 url,
    detect_of_none url⟩

/-- Claim C5, witness at concrete URLs: a gyanilinks URL is classified as
`gyanilinks`, and a URL matching no pattern is classified `unknown`. -/
theorem c5_witness :
    detect_service "https://gyanilinks.com/12/x" = "gyanilinks"
    ∧ detect_service "https://example.com/page" = "unknown" := by
  constructor
  · exact (c5_detect_service "https://gyanilinks.com/12/x").2.2.1 (by decide)
  · exact (c5_detect_service "https://example.com/page").2.2.2.2 (by decide)

/-- Claim C6 (confirmed): `safe_request` makes at most `max_retries`
attempts; if the first success is at attempt `k` it returns that response
after `k + 1` attempts having slept `2^0, ..., 2^(k-1)` seconds after the
failed attempts; if every attempt fails with a transport error it returns
`None` after exactly `max_retries` attempts, sleeping after each failed
attempt except the final one; and it returns `None` only when every
attempt failed. -/
theorem c6_safe_request (fetch : Fetch) (url : String) (redir : Bool) (m : Nat) :
    (safe_request fetch url redir m).attempts ≤ m
    ∧ (∀ k r, k < m → (∀ j, j < k → ∃ msg, fetch url redir j = .reqErr msg) →
        fetch url redir k = .ok r →
        (safe_request fetch url redir m).result = .ok (some r)
        ∧ (safe_request fetch url redir m).attempts = k + 1
        ∧ (safe_request fetch url redir m).sleeps =
            (List.range k).map (fun i => 2 ^ i))
    ∧ ((∀ j, j < m → ∃ msg, fetch url redir j = .reqErr msg) →
        (safe_request fetch url redir m).result = .ok none
        ∧ (safe_request fetch url redir m).attempts = m
        ∧ (safe_request fetch url redir m).sleeps =
            (List.range (m - 1)).map (fun i => 2 ^ i))
    ∧ ((safe_request fetch url redir m).result = .ok none →
        ∀ j, j < m → ∃ msg, fetch url redir j = .reqErr msg) := by
  refine ⟨safe_request_go_attempts_le fetch url redir m m 0, ?_, ?_, ?_⟩
  · intro k r hk hf hok
    rw [safe_request, safe_request_go_firstSuccess fetch url redir m m 0 k r
      (by omega) (Nat.zero_le k) hk (fun j hj hj2 => hf j hj2) hok]
    refine ⟨rfl, ?_, ?_⟩
    · show k + 1 - 0 = k + 1
      omega
    · show (List.range' 0 (k - 0)).map (fun i => 2 ^ i) =
        (List.range k).map (fun i => 2 ^ i)
      rw [List.range_eq_range']
      simp
  · intro hf
    rw [safe_request, safe_request_go_allFail fetch url redir m m 0 (by omega)
      (fun j hj hj2 => hf j hj2)]
    refine ⟨rfl, rfl, ?_⟩
    show (List.range' 0 (m - 1)).map (fun i => 2 ^ i) =
      (List.range (m - 1)).map (fun i => 2 ^ i)
    rw [List.range_eq_range']
  · intro hres j hj
    exact safe_request_go_none fetch url redir m m 0 (by omega) hres j
      (Nat.zero_le j) hj

/-- Claim C6, witness: with attempt 0 failing and attempt 1 succeeding,
`safe_request` returns the attempt-1 response after 2 attempts with a
single one-second back-off sleep. -/
theorem c6_witness :
    (safe_request flakyFetch "https://adf.ly/1/x" false 3).result
      = .ok (some ⟨"https://final.example.com", "body"⟩)
    ∧ (safe_request flakyFetch "https://adf.ly/1/x" false 3).attempts = 2
    ∧ (safe_request flakyFetch "https://adf.ly/1/x" false 3).sleeps = [1] := by
  have h := (c6_safe_request flakyFetch "https://adf.ly/1/x" false 3).2.1 1
    ⟨"https://final.example.com", "body"⟩ (by omega)
    (fun j hj => by
      have hj0 : j = 0 := by omega
      subst hj0
      exact ⟨"timeout", rfl⟩)
    rfl
  exact ⟨h.1, h.2.1, h.2.2⟩

/-- Claim C7, counterexample: for a shortconnect URL whose redirect-enabled
fetch succeeds with a final URL **equal** to the input, the code returns
that URL as the candidate and reports success, whereas the claim says the
candidate must be null in that case. -/
theorem c7_counterexample :
    detect_service "https://shortconnect.com/abc123" = "shortconnect"
    ∧ (solve_single echoFetch 3 1 "https://shortconnect.com/abc123").solved_url
        = some "https://shortconnect.com/abc123"
    ∧ (solve_single echoFetch 3 1 "https://shortconnect.com/abc123").success = true := by
  refine ⟨by decide, by decide, by decide⟩

/-- Claim C7, amended: both redirect-follow services fetch with redirects
enabled, but only the linkvertise strategy applies the differs-check (the
candidate is the final response URL iff it differs from the input,
otherwise null); the shortconnect branch returns the final response URL
whenever the fetch succeeds, even when it equals the input. -/
theorem c7_amended (fetch : Fetch) (m : Nat) (t : ℚ) (url : String) (r : Response)
    (hm : 0 < m) (hfetch : fetch url true 0 = .ok r) :
    extract_linkvertise_link fetch m url = (if r.url = url then none else some r.url)
    ∧ (detect_service url = "linkvertise" →
        (solve_single fetch m t url).solved_url =
          (if r.url = url then none else some r.url))
    ∧ (detect_service url = "shortconnect" →
        (solve_single fetch m t url).solved_url = some r.url) := by
  have hsr : safe_request fetch url true m = ⟨.ok (some r), 1, []⟩ := by
    rw [safe_request, safe_request_go_firstSuccess fetch url true m m 0 0 r
      (by omega) (le_refl 0) hm (fun j hj hj2 => absurd hj2 (by omega)) hfetch]
    rfl
  have hlv : extract_linkvertise_link fetch m url =
      (if r.url = url then none else some r.url) := by
    rw [extract_linkvertise_link, hsr]
    by_cases h : r.url = url <;> simp [h]
  refine ⟨hlv, ?_, ?_⟩
  · intro hdet
    by_cases h : r.url = url <;> simp [solve_single, dispatchStrategy, hdet, hlv, h]
  · intro hdet
    simp [solve_single, dispatchStrategy, hdet, hsr]

/-- Claim C7, witness for the amended theorem: shortconnect keeps an
unchanged final URL as the candidate while linkvertise maps it to null. -/
theorem c7_witness :
    (solve_single echoFetch 3 1 "https://shortconnect.com/abc123").solved_url
      = some "https://shortconnect.com/abc123"
    ∧ extract_linkvertise_link echoFetch 3 "https://linkvertise.com/1/x" = none := by
  constructor
  · exact (c7_amended echoFetch 3 1 "https://shortconnect.com/abc123"
      ⟨"https://shortconnect.com/abc123", ""⟩ (by omega) rfl).2.2 (by decide)
  · have h := (c7_amended echoFetch 3 1 "https://linkvertise.com/1/x"
      ⟨"https://linkvertise.com/1/x", ""⟩ (by omega) rfl).1
    simpa using h

/-- Claim C8 (confirmed): the descramble transform is its own structural
inverse on witnesses of both parities — applying it twice to the
even-length token `"ab"` and to the odd-length token `"abc"` returns the
original token. -/
theorem c8_descramble_involution_examples :
    ∃ evenTok oddTok : List Char,
      evenTok.length % 2 = 0 ∧ 0 < evenTok.length ∧
      descramble (descramble evenTok) = evenTok ∧
      oddTok.length % 2 = 1 ∧
      descramble (descramble oddTok) = oddTok :=
  ⟨"ab".toList, "abc".toList, by decide, by decide, by decide, by decide, by decide⟩

/-- Claim C9 (code bug): the `json` branch of `export_results` evaluates
`json.dumps`, but the module never imports `json`, so the call raises
`NameError` for every results list instead of returning a JSON array. -/
theorem c9_export_json_name_error (results : List SolveResult) :
    export_results results "json" = .error "NameError: name 'json' is not defined" := by
  simp [export_results, module_imports]

/-- Claim C10 (confirmed): the descramble loop preserves the length of the
captured token and produces a permutation of it, so any URL the extraction
finds in the descrambled text uses only characters already present in the
scrambled token (counted with multiplicity). -/
theorem c10_descramble_perm (t : List Char) :
    (descramble t).length = t.length
    ∧ List.Perm (descramble t) t
    ∧ (∀ u, findUrlGo (descramble t) = some u → ∀ c, u.count c ≤ t.count c) := by
  have hperm := descramble_perm t
  refine ⟨hperm.length_eq, hperm, ?_⟩
  intro u hu c
  have hinf := findUrlGo_isInfix (descramble t) u hu
  have h1 : u.count c ≤ (descramble t).count c := hinf.sublist.count_le c
  have h2 : (descramble t).count c = t.count c := hperm.count_eq c
  omega

/-- Claim C10, witness: the token `":p/t/tahb"` descrambles to
`"http://ab"`, which the URL search finds, and its character counts are
bounded by the token's. -/
theorem c10_witness :
    findUrlGo (descramble (":p/t/tahb".toList)) = some ("http://ab".toList)
    ∧ ("http://ab".toList).count 'h' ≤ (":p/t/tahb".toList).count 'h' :=
  ⟨by decide,
    (c10_descramble_perm (":p/t/tahb".toList)).2.2 ("http://ab".toList) (by decide) 'h'⟩
